import Mathlib

/-!
Verification development for a Kademlia-style DHT node written in Rust.

The definitions below are a shallow embedding of the program's source:

* `src/utilities.rs` — identifier parsing (`sha1_to_bytes`), the distance
  scalar (`distance_to_node`, `calculate_xor_distance`);
* `src/peers.rs` — the routing table (`PeerManager`): `add_peer`,
  `nearby_peers`, `find_nearby_peers`, `find_peers_at_offset`;
* `src/messages.rs` — the response queue (`process_incoming_requests`,
  `wait_for_response`);
* `src/node_state.rs` — the TOML state snapshot
  (`serialize_state`, `deserialize_state`).

Machine integers are modelled as `Nat` (values kept in range by
construction or by explicit `% 2^w` wrapping where Rust casts occur).
Fallible Rust code returns `RResult`: `panic` models a Rust panic,
`error` a returned `Err`, `ok` a returned `Ok`.
-/

set_option maxRecDepth 100000

deriving instance DecidableEq for Except

/-- Outcome of running a fallible piece of Rust code: a panic, an `Err`
value, or an `Ok` value. -/
inductive RResult (α : Type) where
  | panic : RResult α
  | error : String → RResult α
  | ok : α → RResult α
deriving DecidableEq

/-! ## Byte-level helpers (u8 / u32 primitives used by the source) -/

/-- Bitwise XOR on 8-bit values (`a ^ b` on Rust `u8`), computed bit by bit. -/
def xor8 : Nat → Nat → Nat → Nat
  | 0, _, _ => 0
  | k + 1, a, b =>
    (if a % 2 = b % 2 then 0 else 1) + 2 * xor8 k (a / 2) (b / 2)

/-- `u8::leading_zeros` for values below 256. -/
def leadingZeros8 (x : Nat) : Nat :=
  if 128 ≤ x then 0
  else if 64 ≤ x then 1
  else if 32 ≤ x then 2
  else if 16 ≤ x then 3
  else if 8 ≤ x then 4
  else if 4 ≤ x then 5
  else if 2 ≤ x then 6
  else if 1 ≤ x then 7
  else 8

/-- `u32::leading_zeros` for values below 2^32. -/
def leadingZeros32 (x : Nat) : Nat :=
  if 2147483648 ≤ x then 0
  else if 1073741824 ≤ x then 1
  else if 536870912 ≤ x then 2
  else if 268435456 ≤ x then 3
  else if 134217728 ≤ x then 4
  else if 67108864 ≤ x then 5
  else if 33554432 ≤ x then 6
  else if 16777216 ≤ x then 7
  else if 8388608 ≤ x then 8
  else if 4194304 ≤ x then 9
  else if 2097152 ≤ x then 10
  else if 1048576 ≤ x then 11
  else if 524288 ≤ x then 12
  else if 262144 ≤ x then 13
  else if 131072 ≤ x then 14
  else if 65536 ≤ x then 15
  else if 32768 ≤ x then 16
  else if 16384 ≤ x then 17
  else if 8192 ≤ x then 18
  else if 4096 ≤ x then 19
  else if 2048 ≤ x then 20
  else if 1024 ≤ x then 21
  else if 512 ≤ x then 22
  else if 256 ≤ x then 23
  else if 128 ≤ x then 24
  else if 64 ≤ x then 25
  else if 32 ≤ x then 26
  else if 16 ≤ x then 27
  else if 8 ≤ x then 28
  else if 4 ≤ x then 29
  else if 2 ≤ x then 30
  else if 1 ≤ x then 31
  else 32

/-! ## `sha1_to_bytes` (src/utilities.rs lines 61-69)

Rust's `u8::from_str_radix(s, 16)`: an optional leading sign, then hex
digits (`char::to_digit(16)` accepts both cases); the accumulated value is
range-checked against `u8` at every step. -/

/-- Error kinds of `std::num::ParseIntError` relevant here. -/
inductive ParseIntError where
  | empty : ParseIntError
  | invalidDigit : ParseIntError
  | posOverflow : ParseIntError
  | negOverflow : ParseIntError
deriving DecidableEq

/-- `char::to_digit(16)`: value of a hex digit, either case. -/
def hexDigitVal (c : Char) : Option Nat :=
  if 48 ≤ c.toNat ∧ c.toNat ≤ 57 then some (c.toNat - 48)
  else if 97 ≤ c.toNat ∧ c.toNat ≤ 102 then some (c.toNat - 97 + 10)
  else if 65 ≤ c.toNat ∧ c.toNat ≤ 70 then some (c.toNat - 65 + 10)
  else none

/-- Digit-accumulation loop of `u8::from_str_radix` (radix 16).  For the
negative sign the accumulator is `0 - d₁·16… `, which underflows `u8` on
the first nonzero digit. -/
def fromStrRadix16Go (neg : Bool) : Nat → List Char → Except ParseIntError Nat
  | acc, [] => Except.ok acc
  | acc, c :: cs =>
    match hexDigitVal c with
    | none => Except.error ParseIntError.invalidDigit
    | some d =>
      if neg then
        if acc = 0 ∧ d = 0 then fromStrRadix16Go neg 0 cs
        else Except.error ParseIntError.negOverflow
      else
        if acc * 16 + d ≤ 255 then fromStrRadix16Go neg (acc * 16 + d) cs
        else Except.error ParseIntError.posOverflow

/-- `u8::from_str_radix(s, 16)`. -/
def fromStrRadix16 (s : List Char) : Except ParseIntError Nat :=
  match s with
  | [] => Except.error ParseIntError.empty
  | c :: cs =>
    if c = '+' then
      match cs with
      | [] => Except.error ParseIntError.empty
      | _ => fromStrRadix16Go false 0 cs
    else if c = '-' then
      match cs with
      | [] => Except.error ParseIntError.empty
      | _ => fromStrRadix16Go true 0 cs
    else fromStrRadix16Go false 0 s

/-- The loop of `sha1_to_bytes`: chunk `i` is the byte slice
`&sha1[i*2 .. i*2+2]`; slicing out of range panics (modelled as `none`),
a failed parse returns the error, otherwise the byte is accumulated.
`fuel` counts the remaining iterations (20 at the start). -/
def sha1ToBytesGo (s : List Char) : Nat → Nat → List Nat →
    Option (Except ParseIntError (List Nat))
  | 0, _, acc => some (Except.ok acc.reverse)
  | fuel + 1, i, acc =>
    if s.length < i * 2 + 2 then none
    else
      match fromStrRadix16 ((s.drop (i * 2)).take 2) with
      | Except.error e => some (Except.error e)
      | Except.ok b => sha1ToBytesGo s fuel (i + 1) (b :: acc)

/-- `sha1_to_bytes` (src/utilities.rs):
`for i in 0..20 { bytes[i] = u8::from_str_radix(&sha1[i*2..i*2+2], 16)?; }`.
`none` models a Rust panic (slice out of bounds). -/
def sha1ToBytes (s : List Char) : Option (Except ParseIntError (List Nat)) :=
  sha1ToBytesGo s 20 0 []

/-! ## `distance_to_node` and `calculate_xor_distance`
(src/utilities.rs lines 6-27) -/

/-- The loop of `distance_to_node`: scan byte pairs from index `i`; at the
first differing pair the result is `8 * (19 - i) + xor.leading_zeros()`,
otherwise 0. -/
def distanceToNodeGo : Nat → List (Nat × Nat) → Nat
  | _, [] => 0
  | i, (x, y) :: rest =>
    if xor8 8 x y ≠ 0 then 8 * (19 - i) + leadingZeros8 (xor8 8 x y)
    else distanceToNodeGo (i + 1) rest

/-- `distance_to_node(node_id_a, node_id_b)` on two 20-byte arrays. -/
def distanceToNode (a b : List Nat) : Nat :=
  distanceToNodeGo 0 (a.zip b)

def invalidNodeIdMsg : String := "Invalid node ID: "
def invalidTargetIdMsg : String := "Invalid target ID: "

/-- `calculate_xor_distance(node_id, target_id)` (src/utilities.rs):
parses both 40-hex ids and applies `distance_to_node`. -/
def calculateXorDistance (nodeId targetId : String) : RResult Nat :=
  match sha1ToBytes nodeId.data with
  | none => RResult.panic
  | some (Except.error _) => RResult.error (invalidNodeIdMsg ++ nodeId)
  | some (Except.ok a) =>
    match sha1ToBytes targetId.data with
    | none => RResult.panic
    | some (Except.error _) => RResult.error (invalidTargetIdMsg ++ targetId)
    | some (Except.ok b) => RResult.ok (distanceToNode a b)

/-- The specification's notion of XOR distance: the byte-wise XOR of the
two 20-byte ids read as a big-endian integer.  This definition follows the
spec's words ("the XOR of the two 160-bit values as a 20-byte big-endian
integer") and exists to be compared with `calculateXorDistance`. -/
def xorDistanceInt (a b : List Nat) : Nat :=
  (a.zip b).foldl (fun acc p => acc * 256 + xor8 8 p.1 p.2) 0

/-! ## The routing table (src/peers.rs)

`structures::Peer` as used by `peers.rs`: `active`, `address` (the
stringified IP), `first_seen`, optional `last_seen`, `node_id`, `port`.
A `SocketAddr` is its IP (kept abstract as a string) plus port.
`PeerManager` holds 160 buckets (`Vec<VecDeque<Peer>>`, front of the
deque = head of the list) and the local node id; the file-lock field has
no bearing on the claims and is omitted. -/

structure SocketAddr where
  ip : String
  port : Nat
deriving DecidableEq

structure Peer where
  active : Bool
  address : String
  first_seen : Nat
  last_seen : Option Nat
  node_id : String
  port : Nat
deriving DecidableEq

structure PMState where
  buckets : List (List Peer)
  local_node_id : String
deriving DecidableEq

def distanceFailMsg : String := "Failed to calculate distance: "
def bucketFullMsg : String := "Bucket is full"

/-- `PeerManager::add_peer` (src/peers.rs lines 42-101).  `now` is the
Unix timestamp the source obtains from the system clock, passed
explicitly here.  Indexing `self.buckets[bucket_index]` out of range is a
panic. -/
def addPeer (pm : PMState) (socketAddr : SocketAddr) (peerNodeId : String)
    (active : Bool) (now : Nat) : RResult (PMState × Peer) :=
  match calculateXorDistance pm.local_node_id peerNodeId with
  | RResult.panic => RResult.panic
  | RResult.error e => RResult.error (distanceFailMsg ++ e)
  | RResult.ok distance =>
    match pm.buckets[leadingZeros32 distance]? with
    | none => RResult.panic
    | some bucket =>
      if 20 ≤ bucket.length then RResult.error bucketFullMsg
      else
        match bucket.findIdx? (fun p => p.node_id == peerNodeId) with
        | some index =>
          match bucket[index]? with
          | none => RResult.panic
          | some old =>
            RResult.ok
              ({ pm with
                 buckets := pm.buckets.set (leadingZeros32 distance)
                   (bucket.set index
                     { old with
                       active := active
                       last_seen := if active then some now else old.last_seen }) },
               { old with
                 active := active
                 last_seen := if active then some now else old.last_seen })
        | none =>
          RResult.ok
            ({ pm with
               buckets := pm.buckets.set (leadingZeros32 distance)
                 (bucket ++
                   [{ active := active
                      address := socketAddr.ip
                      first_seen := now
                      last_seen := if active then some now else none
                      node_id := peerNodeId
                      port := socketAddr.port }]) },
             { active := active
               address := socketAddr.ip
               first_seen := now
               last_seen := if active then some now else none
               node_id := peerNodeId
               port := socketAddr.port })

/-! ## Neighbour lookup (src/peers.rs lines 103-238) -/

/-- Rust `Option<u64>` ordering: `None` sorts below any `Some`. -/
def optLtNat : Option Nat → Option Nat → Bool
  | none, none => false
  | none, some _ => true
  | some _, none => false
  | some a, some b => a < b

/-- Stable insertion for descending `last_seen` order: a peer moves ahead
of exactly those peers with strictly smaller `last_seen`. -/
def insertByLastSeenDesc (p : Peer) : List Peer → List Peer
  | [] => [p]
  | q :: rest =>
    if optLtNat q.last_seen p.last_seen then p :: q :: rest
    else q :: insertByLastSeenDesc p rest

/-- `peers.sort_by(|a, b| b.last_seen.cmp(&a.last_seen))`: a stable sort
by descending `last_seen` (insertion sort yields the same list as Rust's
stable sort). -/
def sortByLastSeenDesc (l : List Peer) : List Peer :=
  l.foldl (fun acc p => insertByLastSeenDesc p acc) []

/-- `PeerManager::find_peers_at_offset` (src/peers.rs lines 208-238):
recomputes the target's distance scalar, adds `distance_offset`, clamps to
`[0, 160]`, and reads the bucket at the `leading_zeros` of that value,
returning its peers (seen-only unless `include_unseen`) sorted by
descending `last_seen`. -/
def findPeersAtOffset (pm : PMState) (targetNodeId : String)
    (distanceOffset : Nat) (includeUnseen : Bool) : RResult (List Peer) :=
  match calculateXorDistance pm.local_node_id targetNodeId with
  | RResult.panic => RResult.panic
  | RResult.error e => RResult.error (distanceFailMsg ++ e)
  | RResult.ok distance0 =>
    let distance1 := distance0 + distanceOffset
    let distance2 := max distance1 0
    let distance3 := min distance2 160
    let bucketIndex := leadingZeros32 distance3
    match pm.buckets[bucketIndex]? with
    | none => RResult.panic
    | some bucket =>
      let peers := bucket
      let peers := if !includeUnseen then peers.filter (fun p => p.last_seen ≠ none) else peers
      RResult.ok (sortByLastSeenDesc peers)

/-- Key lookup in the insertion-ordered association list that models the
`HashMap<String, Peer>` of `find_nearby_peers`/`nearby_peers`. -/
def hasKey (m : List (String × Peer)) (k : String) : Bool :=
  (m.find? (fun e => e.1 == k)).isSome

/-- Inner loop of `find_nearby_peers`: fold the nodes of one bucket into
the accumulated map, skipping the target and already-present ids; when the
map reaches 20 entries the whole function returns (`Bool` flags that early
return). -/
def insertNodes (targetNodeId : String) (acc : List (String × Peer)) :
    List Peer → List (String × Peer) × Bool
  | [] => (acc, false)
  | node :: rest =>
    if node.node_id == targetNodeId then insertNodes targetNodeId acc rest
    else if hasKey acc node.node_id then insertNodes targetNodeId acc rest
    else
      if 20 ≤ (acc ++ [(node.node_id, node)]).length then
        (acc ++ [(node.node_id, node)], true)
      else insertNodes targetNodeId (acc ++ [(node.node_id, node)]) rest

/-- First half of one iteration of the `for offset in 0..ID_BITS` loop of
`find_nearby_peers`: the bucket at `target_bucket_index + offset`.  `Err`
from `find_peers_at_offset` is ignored (`if let Ok`), a panic propagates;
the `Bool` flags the early `return` once the map holds 20 peers. -/
def upperStep (pm : PMState) (targetNodeId : String) (includeUnseen : Bool)
    (tbi offset : Nat) (acc : List (String × Peer)) :
    RResult (List (String × Peer) × Bool) :=
  match findPeersAtOffset pm targetNodeId (tbi + offset) includeUnseen with
  | RResult.panic => RResult.panic
  | RResult.error _ => RResult.ok (acc, false)
  | RResult.ok nodes => RResult.ok (insertNodes targetNodeId acc nodes)

/-- Second half of one iteration: the bucket at
`target_bucket_index - offset`, guarded by
`offset > 0 && offset <= target_bucket_index`. -/
def lowerStep (pm : PMState) (targetNodeId : String) (includeUnseen : Bool)
    (tbi offset : Nat) (acc : List (String × Peer)) :
    RResult (List (String × Peer) × Bool) :=
  if 0 < offset ∧ offset ≤ tbi then
    match findPeersAtOffset pm targetNodeId (tbi - offset) includeUnseen with
    | RResult.panic => RResult.panic
    | RResult.error _ => RResult.ok (acc, false)
    | RResult.ok nodes => RResult.ok (insertNodes targetNodeId acc nodes)
  else RResult.ok (acc, false)

/-- The `for offset in 0..ID_BITS` loop of `find_nearby_peers`; `fuel`
counts the remaining offsets (160 at the start, `offset` starting at 0). -/
def findNearbyGo (pm : PMState) (targetNodeId : String) (includeUnseen : Bool)
    (tbi : Nat) : Nat → Nat → List (String × Peer) →
    RResult (List (String × Peer))
  | 0, _, acc => RResult.ok acc
  | fuel + 1, offset, acc =>
    match upperStep pm targetNodeId includeUnseen tbi offset acc with
    | RResult.panic => RResult.panic
    | RResult.error e => RResult.error e
    | RResult.ok (acc1, true) => RResult.ok acc1
    | RResult.ok (acc1, false) =>
      match lowerStep pm targetNodeId includeUnseen tbi offset acc1 with
      | RResult.panic => RResult.panic
      | RResult.error e => RResult.error e
      | RResult.ok (acc2, true) => RResult.ok acc2
      | RResult.ok (acc2, false) =>
        findNearbyGo pm targetNodeId includeUnseen tbi fuel (offset + 1) acc2

/-- Values of the association list, in order: the
`peers.into_iter().map(|(_, peer)| peer).collect()` step.  (The Rust
`HashMap` iterates in an unspecified order; the model keeps insertion
order as its deterministic representative.) -/
def mapVals (m : List (String × Peer)) : List Peer :=
  m.map (fun e => e.2)

/-- `PeerManager::find_nearby_peers` (src/peers.rs lines 144-206). -/
def findNearbyPeers (pm : PMState) (targetNodeId : String)
    (includeUnseen : Bool) : RResult (List Peer) :=
  match calculateXorDistance pm.local_node_id targetNodeId with
  | RResult.panic => RResult.panic
  | RResult.error e => RResult.error (distanceFailMsg ++ e)
  | RResult.ok targetDistance =>
    match findNearbyGo pm targetNodeId includeUnseen
        (leadingZeros32 targetDistance) 160 0 [] with
    | RResult.panic => RResult.panic
    | RResult.error e => RResult.error e
    | RResult.ok acc => RResult.ok (mapVals acc)

/-- The second-pass fill loop of `nearby_peers`: add unseen peers whose id
is not yet present until the map holds 20 entries. -/
def fillLoop (m : List (String × Peer)) : List Peer → List (String × Peer)
  | [] => m
  | p :: rest =>
    if hasKey m p.node_id then fillLoop m rest
    else
      if 20 ≤ (m ++ [(p.node_id, p)]).length then m ++ [(p.node_id, p)]
      else fillLoop (m ++ [(p.node_id, p)]) rest

/-- `PeerManager::nearby_peers` (src/peers.rs lines 103-128): seen peers
first; only if fewer than 20 were found, fill up with unseen peers. -/
def nearbyPeers (pm : PMState) (targetNodeId : String) : RResult (List Peer) :=
  match findNearbyPeers pm targetNodeId false with
  | RResult.panic => RResult.panic
  | RResult.error e => RResult.error e
  | RResult.ok seenList =>
    if (seenList.map (fun p => (p.node_id, p))).length < 20 then
      match findNearbyPeers pm targetNodeId true with
      | RResult.panic => RResult.panic
      | RResult.error e => RResult.error e
      | RResult.ok unseenList =>
        RResult.ok
          (mapVals (fillLoop (seenList.map (fun p => (p.node_id, p))) unseenList))
    else RResult.ok (mapVals (seenList.map (fun p => (p.node_id, p))))


/-! ## Packets and the response queue (src/structures.rs, src/messages.rs) -/

structure FoundNode where
  address : SocketAddr
  node_id : String
deriving DecidableEq

inductive FoundValue where
  | value : List Nat → FoundValue
  | nodes : List FoundNode → FoundValue
deriving DecidableEq

inductive Request where
  | ping : Request
  | store : String → List Nat → Request
  | findNode : String → Request
  | findValue : String → Request
deriving DecidableEq

inductive Response where
  | pong : Response
  | store : Response
  | findNode : List FoundNode → Response
  | findValue : FoundValue → Response
deriving DecidableEq

inductive Message where
  | request : Request → Message
  | response : Response → Message
deriving DecidableEq

structure Packet where
  message : Message
  node_id : String
  transaction_id : String
deriving DecidableEq

/-- The per-datagram body of `process_incoming_requests`
(src/messages.rs lines 22-66) after a successful `bincode` decode: the
sender is recorded in the routing table via `add_peer(src, node_id, true)`
(on error the packet is dropped), and a `Response` packet is pushed onto
the back of the shared response queue.  The source address `src` is used
only for `add_peer`; it is not stored with the queued packet.  Request
handling (`handle_request`) sends replies but never touches the queue, so
it is a no-op for the queue model. -/
def processPacket (pm : PMState) (queue : List Packet) (src : SocketAddr)
    (packet : Packet) (now : Nat) : RResult (PMState × List Packet) :=
  match addPeer pm src packet.node_id true now with
  | RResult.panic => RResult.panic
  | RResult.error _ => RResult.ok (pm, queue)
  | RResult.ok (pm', _) =>
    match packet.message with
    | Message.response _ => RResult.ok (pm', queue ++ [packet])
    | Message.request _ => RResult.ok (pm', queue)

def timedOutMsg : String := "Timed out waiting for response to transaction: "

/-- `wait_for_response` (src/messages.rs lines 218-252) run against a
queue with no concurrent producer: each iteration pops the front packet,
returns it if its `transaction_id` matches, otherwise pushes it to the
back and retries.  `fuel` models the iterations available before the 5 s
deadline (or a cleared `is_running` flag) ends the wait; the result also
carries the final queue contents. -/
def waitForResponse : Nat → List Packet → String →
    Except String (Packet × List Packet)
  | 0, _, transactionId => Except.error (timedOutMsg ++ transactionId)
  | fuel + 1, queue, transactionId =>
    match queue with
    | [] => waitForResponse fuel [] transactionId
    | v :: rest =>
      if v.transaction_id == transactionId then Except.ok (v, rest)
      else waitForResponse fuel (rest ++ [v]) transactionId

/-! ## The TOML state snapshot (src/node_state.rs)

`toml::Table` is a `BTreeMap<String, Value>` (the `toml` crate without
`preserve_order`): a key-sorted association list here, ordered by the
byte-lexicographic `Ord` of Rust strings (UTF-8 byte order coincides with
code-point order).  `serialize_state` builds the table tree and
`deserialize_state` reads it back; the intervening
`toml::to_string`/`toml::from_str` text encoding belongs to the external
`toml` crate, which round-trips every table built here, so the model
composes the two directly at the table level. -/

structure NodePeer where
  address : String
  last_seen : Nat
  node_id : String
  port : Nat
deriving DecidableEq

structure NodeState where
  node_id : String
  peers : List NodePeer
deriving DecidableEq

inductive Toml where
  | str : String → Toml
  | int : Int → Toml
  | table : List (String × Toml) → Toml

/-- Byte-lexicographic strict order on strings (Rust `String` `Ord`). -/
def charListLt : List Char → List Char → Bool
  | [], [] => false
  | [], _ :: _ => true
  | _ :: _, [] => false
  | a :: as, b :: bs => if a = b then charListLt as bs else a.toNat < b.toNat

def strLt (a b : String) : Bool := charListLt a.data b.data

/-- `BTreeMap::insert`: place the binding at its sorted position,
replacing an existing binding of the same key. -/
def tableInsert (k : String) (v : Toml) : List (String × Toml) →
    List (String × Toml)
  | [] => [(k, v)]
  | (k', v') :: rest =>
    if strLt k k' then (k, v) :: (k', v') :: rest
    else if k = k' then (k, v) :: rest
    else (k', v') :: tableInsert k v rest

/-- `BTreeMap` lookup (`table["key"]` panics when absent, handled at the
call sites). -/
def tableGet (t : List (String × Toml)) (k : String) : Option Toml :=
  (t.find? (fun e => e.1 == k)).map (fun e => e.2)

def asTable : Toml → Option (List (String × Toml))
  | Toml.table t => some t
  | _ => none

def asStr : Toml → Option String
  | Toml.str s => some s
  | _ => none

def asInt : Toml → Option Int
  | Toml.int n => some n
  | _ => none

/-- The Rust cast `u64 as i64` (two's-complement reinterpretation). -/
def u64AsI64 (n : Nat) : Int :=
  (((n + 9223372036854775808) % 18446744073709551616 : Nat) : Int)
    - 9223372036854775808

/-- The Rust cast `i64 as u64`. -/
def i64AsU64 (i : Int) : Nat := (i % (18446744073709551616 : Int)).toNat

/-- The Rust cast `i64 as u16`. -/
def i64AsU16 (i : Int) : Nat := (i % (65536 : Int)).toNat

def kNode : String := "node"
def kPeers : String := "peers"
def kNodeId : String := "node_id"
def kAddress : String := "address"
def kLastSeen : String := "last_seen"
def kPort : String := "port"

/-- The per-peer table built by `serialize_state` (src/node_state.rs lines
115-147): `node_id`, `address`, `last_seen`, `port`.  The source's
`peer.address.parse::<String>()` and `peer.port.to_string().parse::<u16>()`
are total identities, so their unreachable error arms are elided. -/
def peerToTable (p : NodePeer) : List (String × Toml) :=
  tableInsert kPort (Toml.int (p.port : Int))
    (tableInsert kLastSeen (Toml.int (u64AsI64 p.last_seen))
      (tableInsert kAddress (Toml.str p.address)
        (tableInsert kNodeId (Toml.str p.node_id) [])))

/-- `serialize_state` (src/node_state.rs lines 104-155), up to the final
`toml::to_string`: the root table with a `node` table and a `peers` table
keyed by each peer's `node_id` (later duplicates overwrite earlier ones). -/
def serializeState (state : NodeState) : List (String × Toml) :=
  let nodeTable := tableInsert kNodeId (Toml.str state.node_id) []
  let peersTable := state.peers.foldl
    (fun t p => tableInsert p.node_id (Toml.table (peerToTable p)) t) []
  tableInsert kPeers (Toml.table peersTable)
    (tableInsert kNode (Toml.table nodeTable) [])

def noNodeTableMsg : String := "No node table found in state file."
def noPeersTableMsg : String := "No peers table found in state file."
def noNodeIdMsg : String := "No node_id found in state file."
def noPeerTableMsg : String := "No peer table found in state file."
def noPeerLastSeenMsg : String := "No peer last_seen found in state file."
def noPeerNodeIdMsg : String := "No peer node_id found in state file."
def noPeerAddressMsg : String := "No peer address found in state file."
def noPeerPortMsg : String := "No peer port found in state file."

/-- Body of the peer loop of `deserialize_state`: decode one value of the
`peers` table (`last_seen`, `node_id`, `address`, `port`, in source
order).  Indexing a missing key panics; a present key of the wrong shape
yields the source's error string. -/
def decodePeer (v : Toml) : RResult NodePeer :=
  match asTable v with
  | none => RResult.error noPeerTableMsg
  | some peerTable =>
    match tableGet peerTable kLastSeen with
    | none => RResult.panic
    | some lastSeenV =>
      match asInt lastSeenV with
      | none => RResult.error noPeerLastSeenMsg
      | some lastSeenI =>
        match tableGet peerTable kNodeId with
        | none => RResult.panic
        | some nodeIdV =>
          match asStr nodeIdV with
          | none => RResult.error noPeerNodeIdMsg
          | some nodeId =>
            match tableGet peerTable kAddress with
            | none => RResult.panic
            | some addressV =>
              match asStr addressV with
              | none => RResult.error noPeerAddressMsg
              | some address =>
                match tableGet peerTable kPort with
                | none => RResult.panic
                | some portV =>
                  match asInt portV with
                  | none => RResult.error noPeerPortMsg
                  | some portI =>
                    RResult.ok
                      { address := address
                        last_seen := i64AsU64 lastSeenI
                        node_id := nodeId
                        port := i64AsU16 portI }

/-- The `for (_, peer) in peers_table.iter()` loop of `deserialize_state`,
pushing decoded peers in table (key-ascending) order. -/
def peersFromTable : List (String × Toml) → RResult (List NodePeer)
  | [] => RResult.ok []
  | (_, v) :: rest =>
    match decodePeer v with
    | RResult.panic => RResult.panic
    | RResult.error e => RResult.error e
    | RResult.ok p =>
      match peersFromTable rest with
      | RResult.panic => RResult.panic
      | RResult.error e => RResult.error e
      | RResult.ok ps => RResult.ok (p :: ps)

/-- `deserialize_state` (src/node_state.rs lines 52-102), after
`toml::from_str` has produced the root table. -/
def deserializeState (root : List (String × Toml)) : RResult NodeState :=
  match tableGet root kNode with
  | none => RResult.panic
  | some nodeV =>
    match asTable nodeV with
    | none => RResult.error noNodeTableMsg
    | some nodeTable =>
      match tableGet root kPeers with
      | none => RResult.panic
      | some peersV =>
        match asTable peersV with
        | none => RResult.error noPeersTableMsg
        | some peersTable =>
          match tableGet nodeTable kNodeId with
          | none => RResult.panic
          | some nodeIdV =>
            match asStr nodeIdV with
            | none => RResult.error noNodeIdMsg
            | some nodeId =>
              match peersFromTable peersTable with
              | RResult.panic => RResult.panic
              | RResult.error e => RResult.error e
              | RResult.ok peers => RResult.ok { node_id := nodeId, peers := peers }


/-! ## Concrete states and inputs used by the claim theorems -/

def zeros40 : String := "0000000000000000000000000000000000000000"
def zeros38 : String := "00000000000000000000000000000000000000"
def zeros36 : String := "000000000000000000000000000000000000"
def id8000 : String := "8000000000000000000000000000000000000000"
def id4000 : String := "4000000000000000000000000000000000000000"
def id0001 : String := "0000000000000000000000000000000000000001"
def idE000 : String := "e000000000000000000000000000000000000000"

/-- The 160 empty buckets of a fresh `PeerManager`. -/
def freshBuckets : List (List Peer) := List.replicate 160 []

/-- A fresh `PeerManager` whose local node id is all-zero. -/
def freshPM : PMState := { buckets := freshBuckets, local_node_id := zeros40 }

def peerAddrA : SocketAddr := { ip := "1.2.3.4", port := 5 }

def mkAddedPeer (id : String) (now : Nat) : Peer :=
  { active := true
    address := "1.2.3.4"
    first_seen := now
    last_seen := some now
    node_id := id
    port := 5 }

def c7zeroBytes : List Nat := List.replicate 20 0
def c7msbBytes : List Nat := 128 :: List.replicate 19 0
def c7msb4Bytes : List Nat := 64 :: List.replicate 19 0

def c8short : String := "000000000000000000000000000000000000000"
def c8upper : String := "FFFFFFFFFFFFFFFFFFFFFFFFFFFFFFFFFFFFFFFF"
def c8long : String := "0000000000000000000000000000000000000000zz"
def c8witShort : String := "abc"

/-- "Lowercase hex digit" in the sense of the specification's id alphabet
`[0-9a-f]`. -/
def IsLowerHexDigit (c : Char) : Prop :=
  (48 ≤ c.toNat ∧ c.toNat ≤ 57) ∨ (97 ≤ c.toNat ∧ c.toNat ≤ 102)

instance (c : Char) : Decidable (IsLowerHexDigit c) := by
  unfold IsLowerHexDigit
  infer_instance

def c5peer : Peer :=
  { active := true
    address := "1.2.3.4"
    first_seen := 7
    last_seen := some 7
    node_id := zeros40
    port := 5 }

def twoHex20 : List String :=
  ["80", "81", "82", "83", "84", "85", "86", "87", "88", "89",
   "8a", "8b", "8c", "8d", "8e", "8f", "90", "91", "92", "93"]

/-- Twenty distinct peers whose ids all fall in bucket 24 for the all-zero
local id. -/
def fullBucket : List Peer :=
  twoHex20.map (fun t =>
    { active := true
      address := "7.7.7.7"
      first_seen := 0
      last_seen := some 3
      node_id := t ++ zeros38
      port := 9 })

def fullPM : PMState :=
  { buckets := freshBuckets.set 24 fullBucket, local_node_id := zeros40 }

def c2wPeerOld : Peer :=
  { active := false
    address := "7.7.7.7"
    first_seen := 1
    last_seen := some 1
    node_id := id8000
    port := 9 }

def c2wPM : PMState :=
  { buckets := freshBuckets.set 24 [c2wPeerOld], local_node_id := zeros40 }

def c2wPeerNew : Peer := { c2wPeerOld with active := true, last_seen := some 42 }

def c3target : String := "f000000000000000000000000000000000000000"
def c3tBytes : List Nat := 240 :: List.replicate 19 0
def c3nearBytes : List Nat := 224 :: List.replicate 19 0

def c3peerFar : Peer :=
  { active := true
    address := "3.3.3.3"
    first_seen := 0
    last_seen := some 10
    node_id := id8000
    port := 4 }

def c3peerNear : Peer :=
  { active := true
    address := "3.3.3.3"
    first_seen := 0
    last_seen := some 5
    node_id := idE000
    port := 4 }

def c3pm : PMState :=
  { buckets := freshBuckets.set 24 [c3peerFar, c3peerNear],
    local_node_id := zeros40 }

/-- Invariant carried by the association list accumulated during
`find_nearby_peers`/`nearby_peers`: keys are pairwise distinct, each key
is its peer's `node_id`, and the target id never appears. -/
def AccInv (t : String) (acc : List (String × Peer)) : Prop :=
  acc.Pairwise (fun a b => a.1 ≠ b.1) ∧
    ∀ e ∈ acc, e.1 = e.2.node_id ∧ e.2.node_id ≠ t

def c6target : String := "0020" ++ zeros36

def c6seen : List Peer :=
  ["10", "11", "12", "13", "14"].map (fun t =>
    { active := true
      address := "8.8.8.8"
      first_seen := 0
      last_seen := some 6
      node_id := t ++ zeros38
      port := 2 })

def c6unseen : List Peer :=
  ["c0", "c1", "c2", "c3", "c4", "c5", "c6", "c7", "c8", "c9",
   "d0", "d1", "d2", "d3", "d4", "d5", "d6", "d7", "d8", "d9"].map (fun t =>
    { active := false
      address := "9.9.9.9"
      first_seen := 0
      last_seen := none
      node_id := t ++ zeros38
      port := 3 })

def c6pm : PMState :=
  { buckets := (freshBuckets.set 10 c6seen).set 11 c6unseen,
    local_node_id := zeros40 }

def c4aid : String := "aaaaaaaaaaaaaaaaaaaaaaaaaaaaaaaaaaaaaaaa"
def c4tid : String := "bbbbbbbbbbbbbbbbbbbbbbbbbbbbbbbbbbbbbbbb"

def c4resp : Packet :=
  { message := Message.response Response.pong
    node_id := c4aid
    transaction_id := c4tid }

def c4dialed : SocketAddr := { ip := "9.9.9.9", port := 1000 }
def c4actualSrc : SocketAddr := { ip := "1.1.1.1", port := 2000 }

def c4peerRecorded : Peer :=
  { active := true
    address := "1.1.1.1"
    first_seen := 3
    last_seen := some 3
    node_id := c4aid
    port := 2000 }

def c9peer : Peer :=
  { active := false
    address := "1.2.3.4"
    first_seen := 0
    last_seen := none
    node_id := id4000
    port := 5 }

def c9pmAfter : PMState :=
  { buckets := freshBuckets.set 24 [c9peer], local_node_id := zeros40 }

/-! Proof-support definitions for the TOML round trip. -/

def keysOf (t : List (String × Toml)) : List String := t.map (fun e => e.1)

def SortedKeys (t : List (String × Toml)) : Prop :=
  t.Pairwise (fun a b => strLt a.1 b.1 = true)

/-- The `peers`-table binding produced by `serialize_state` for one peer. -/
def entryPair (p : NodePeer) : String × Toml :=
  (p.node_id, Toml.table (peerToTable p))

def c10peerB : NodePeer :=
  { address := "127.0.0.1", last_seen := 11, node_id := "bb", port := 9091 }

def c10peerA : NodePeer :=
  { address := "10.0.0.2", last_seen := 22, node_id := "aa", port := 9092 }

def c10state : NodeState :=
  { node_id := "mynode", peers := [c10peerB, c10peerA] }

/-! ## Basic lemmas about the embedded primitives -/

theorem xor8_self (k x : Nat) : xor8 k x x = 0 := by
  induction k generalizing x with
  | zero => rfl
  | succ n ih => unfold xor8; simp [ih]

theorem xor8_comm (k a b : Nat) : xor8 k a b = xor8 k b a := by
  induction k generalizing a b with
  | zero => rfl
  | succ n ih =>
    unfold xor8
    rw [ih]
    congr 1
    by_cases h : a % 2 = b % 2
    · rw [if_pos h, if_pos h.symm]
    · rw [if_neg h, if_neg (fun hh => h hh.symm)]

theorem distanceToNodeGo_self (l : List Nat) :
    ∀ i, distanceToNodeGo i (l.zip l) = 0 := by
  induction l with
  | nil => intro i; rfl
  | cons x xs ih =>
    intro i
    show distanceToNodeGo i ((x, x) :: xs.zip xs) = 0
    rw [distanceToNodeGo, xor8_self, if_neg (by simp)]
    exact ih (i + 1)

theorem distanceToNodeGo_comm (la : List Nat) :
    ∀ (lb : List Nat) (i : Nat),
      distanceToNodeGo i (la.zip lb) = distanceToNodeGo i (lb.zip la) := by
  induction la with
  | nil => intro lb i; cases lb <;> rfl
  | cons x xs ih =>
    intro lb i
    cases lb with
    | nil => rfl
    | cons y ys =>
      show distanceToNodeGo i ((x, y) :: xs.zip ys) =
        distanceToNodeGo i ((y, x) :: ys.zip xs)
      rw [distanceToNodeGo, distanceToNodeGo, xor8_comm 8 y x]
      split
      · rfl
      · exact ih ys (i + 1)

theorem calculateXorDistance_self (s : String) (bs : List Nat)
    (hv : sha1ToBytes s.data = some (Except.ok bs)) :
    calculateXorDistance s s = RResult.ok 0 := by
  unfold calculateXorDistance
  rw [hv]
  simp [distanceToNode, distanceToNodeGo_self]

theorem getElem?_set_cases {α : Type} (l : List α) (i j : Nat) (a b : α)
    (h : (l.set i a)[j]? = some b) : b = a ∨ l[j]? = some b := by
  rw [List.getElem?_set] at h
  split at h
  · split at h
    · left; exact (Option.some.injEq _ _ ▸ h).symm
    · simp at h
  · right; exact h

theorem freshBuckets_bound : ∀ (i : Nat) (b : List Peer),
    freshBuckets[i]? = some b → b.length ≤ 20 := by
  intro i b h
  unfold freshBuckets at h
  rw [List.getElem?_replicate] at h
  split at h
  · cases h; simp
  · simp at h

/-! ## Claim theorems -/

/-- C1 — the bucket index actually computed when inserting a peer.  The
claim (and the spec scenario) places peer `8000…0` in bucket 0, `4000…0`
in bucket 1 and `0000…01` in bucket 159 for an all-zero local id; the code
computes `distance_to_node` (a scalar in `[0,159]`) and then takes the
`u32` `leading_zeros` of that scalar as the bucket index, landing the
three peers in buckets 24, 24 and 29. -/
theorem c1_bucket_assignment :
    addPeer freshPM peerAddrA id8000 true 0 =
      RResult.ok
        ({ buckets := freshBuckets.set 24 [mkAddedPeer id8000 0],
           local_node_id := zeros40 }, mkAddedPeer id8000 0) ∧
    addPeer freshPM peerAddrA id4000 true 0 =
      RResult.ok
        ({ buckets := freshBuckets.set 24 [mkAddedPeer id4000 0],
           local_node_id := zeros40 }, mkAddedPeer id4000 0) ∧
    addPeer freshPM peerAddrA id0001 true 0 =
      RResult.ok
        ({ buckets := freshBuckets.set 29 [mkAddedPeer id0001 0],
           local_node_id := zeros40 }, mkAddedPeer id0001 0) ∧
    24 ≠ 0 ∧ 24 ≠ 1 ∧ 29 ≠ 159 := by
  refine ⟨?_, ?_, ?_, ?_, ?_, ?_⟩ <;> decide

/-- C7 counterexample — `calculate_xor_distance` does not return the XOR
of the two 160-bit values as a 20-byte big-endian integer: for the
all-zero id and `8000…0` the XOR integer is `2^159` while the function
returns the scalar 152. -/
theorem c7_not_xor_integer :
    sha1ToBytes zeros40.data = some (Except.ok c7zeroBytes) ∧
    sha1ToBytes id8000.data = some (Except.ok c7msbBytes) ∧
    calculateXorDistance zeros40 id8000 = RResult.ok 152 ∧
    xorDistanceInt c7zeroBytes c7msbBytes = 2 ^ 159 ∧
    (152 : Nat) ≠ 2 ^ 159 := by
  refine ⟨?_, ?_, ?_, ?_, ?_⟩ <;> decide

/-- C8 counterexample — `sha1_to_bytes` is not total and does not accept
exactly the 40-character lowercase-hex strings: a 39-character input
panics (byte-slice out of bounds, modelled by `none`) instead of
returning an error; a 40-character uppercase-hex input is accepted; and a
42-character input with trailing garbage is accepted, because characters
beyond index 39 are never read. -/
theorem c8_parsing_partial :
    sha1ToBytes c8short.data = none ∧
    sha1ToBytes c8upper.data = some (Except.ok (List.replicate 20 255)) ∧
    sha1ToBytes c8long.data = some (Except.ok (List.replicate 20 0)) := by
  refine ⟨?_, ?_, ?_⟩ <;> decide

/-- C5 counterexample — `add_peer` performs no same-id check: called with
a peer id equal to the local node id it returns `Ok` and stores the local
node as its own peer (distance 0, bucket `leading_zeros(0) = 32`),
instead of returning a `SameId` error and leaving every bucket
unchanged. -/
theorem c5_self_insert :
    addPeer freshPM peerAddrA zeros40 true 7 =
      RResult.ok
        ({ buckets := freshBuckets.set 32 [c5peer],
           local_node_id := zeros40 }, c5peer) ∧
    c5peer.node_id = freshPM.local_node_id := by
  refine ⟨?_, ?_⟩ <;> decide

/-- C2 counterexample — an update of a peer already present in its bucket
does fail with `BucketFull` when the bucket is full: the capacity check
runs before the existing-entry lookup, so `add_peer` on peer `8000…0`,
already stored in its full bucket, returns the `Bucket is full` error
instead of succeeding. -/
theorem c2_update_bucket_full :
    fullBucket.length = 20 ∧
    (fullBucket.findIdx? (fun p => p.node_id == id8000)).isSome = true ∧
    addPeer fullPM peerAddrA id8000 true 9 = RResult.error bucketFullMsg := by
  refine ⟨?_, ?_, ?_⟩ <;> decide

/-- C3 counterexample — the list returned by `nearby_peers` is not
ordered in non-decreasing XOR distance to the target: with two seen peers
in one bucket, the one farther from the target (`8000…0`, XOR integer
`112·256^19` from target `f000…0`) but seen more recently is returned
before the nearer one (`e000…0`, XOR integer `16·256^19`), because
buckets are sorted by descending `last_seen` and the map order never
consults the distance. -/
theorem c3_not_distance_sorted :
    nearbyPeers c3pm c3target = RResult.ok [c3peerFar, c3peerNear] ∧
    sha1ToBytes c3target.data = some (Except.ok c3tBytes) ∧
    sha1ToBytes id8000.data = some (Except.ok c7msbBytes) ∧
    sha1ToBytes idE000.data = some (Except.ok c3nearBytes) ∧
    xorDistanceInt c3tBytes c7msbBytes > xorDistanceInt c3tBytes c3nearBytes := by
  refine ⟨?_, ?_, ?_, ?_, ?_⟩ <;> decide

/-- C6 — the spec's two-pass scenario fails on the code: with 5 seen
peers stored in bucket 10 and 20 unseen peers in bucket 11, a lookup for
a target whose most-significant differing bit is bit 10 returns the empty
list instead of the 5 seen plus 15 unseen peers, because the code's
lookup only ever reads the buckets indexed 24-32 (the `u32`
`leading_zeros` of the clamped distance scalar). -/
theorem c6_two_pass_scenario_fails :
    c6pm.buckets[10]? = some c6seen ∧
    c6pm.buckets[11]? = some c6unseen ∧
    c6seen.length = 5 ∧
    c6unseen.length = 20 ∧
    (∀ p ∈ c6seen, p.last_seen ≠ none) ∧
    (∀ p ∈ c6unseen, p.last_seen = none) ∧
    nearbyPeers c6pm c6target = RResult.ok [] := by
  refine ⟨?_, ?_, ?_, ?_, ?_, ?_, ?_⟩ <;> decide

/-- C4 counterexample — a response whose source endpoint differs from the
endpoint the request was sent to (`9.9.9.9:1000` dialed, response from
`1.1.1.1:2000`) is not discarded: `process_incoming_requests` stores no
expected endpoint and enqueues the packet, and `wait_for_response`
matches on the transaction id alone, delivering it to the waiter. -/
theorem c4_no_source_check :
    c4dialed ≠ c4actualSrc ∧
    processPacket freshPM [] c4actualSrc c4resp 3 =
      RResult.ok
        ({ buckets := freshBuckets.set 24 [c4peerRecorded],
           local_node_id := zeros40 }, [c4resp]) ∧
    waitForResponse 100 [c4resp] c4tid = Except.ok (c4resp, []) := by
  refine ⟨?_, ?_, ?_⟩ <;> decide

/-- C4 (amended) — every packet successfully returned by
`wait_for_response` bears the requested transaction id; no property of
the source endpoint is checked, since the queue does not record one. -/
theorem c4_transaction_id_matches (fuel : Nat) (q : List Packet)
    (tid : String) (p : Packet) (q' : List Packet)
    (h : waitForResponse fuel q tid = Except.ok (p, q')) :
    p.transaction_id = tid := by
  induction fuel generalizing q with
  | zero => simp [waitForResponse] at h
  | succ n ih =>
    cases q with
    | nil =>
      rw [waitForResponse] at h
      exact ih [] h
    | cons v rest =>
      rw [waitForResponse] at h
      by_cases hb : (v.transaction_id == tid) = true
      · rw [if_pos hb] at h
        cases h
        exact eq_of_beq hb
      · rw [if_neg hb] at h
        exact ih (rest ++ [v]) h

/-- Witness for `c4_transaction_id_matches` at a concrete queue. -/
theorem c4_transaction_id_matches_witness :
    waitForResponse 100 [c4resp] c4tid = Except.ok (c4resp, []) ∧
    c4resp.transaction_id = c4tid :=
  ⟨by decide, c4_transaction_id_matches 100 [c4resp] c4tid c4resp [] (by decide)⟩

/-- C9 — no bucket ever exceeds 20 entries: if every bucket of the state
holds at most 20 peers, then after any successful `add_peer` every bucket
still holds at most 20 peers (a new peer is appended only after the
`len >= BUCKET_SIZE` check). -/
theorem c9_bucket_bound (pm : PMState) (sa : SocketAddr) (pid : String)
    (act : Bool) (now : Nat) (pm' : PMState) (p : Peer)
    (hb : ∀ (i : Nat) (b : List Peer), pm.buckets[i]? = some b → b.length ≤ 20)
    (h : addPeer pm sa pid act now = RResult.ok (pm', p)) :
    ∀ (i : Nat) (b : List Peer), pm'.buckets[i]? = some b → b.length ≤ 20 := by
  unfold addPeer at h
  rcases hcd : calculateXorDistance pm.local_node_id pid with _ | e | d
  · simp [hcd] at h
  · simp [hcd] at h
  · simp only [hcd] at h
    rcases hbk : pm.buckets[leadingZeros32 d]? with _ | bucket
    · simp [hbk] at h
    · simp only [hbk] at h
      by_cases hfull : 20 ≤ bucket.length
      · simp [if_pos hfull] at h
      · simp only [if_neg hfull] at h
        have hblen : bucket.length ≤ 20 := hb _ _ hbk
        rcases hidx : bucket.findIdx? (fun q => q.node_id == pid) with _ | index
        · simp only [hidx, RResult.ok.injEq, Prod.mk.injEq] at h
          obtain ⟨hpm', -⟩ := h
          subst hpm'
          intro i b hib
          simp only at hib
          rcases getElem?_set_cases _ _ _ _ _ hib with hb1 | hb2
          · subst hb1; rw [List.length_append]; simp; omega
          · exact hb _ _ hb2
        · simp only [hidx] at h
          rcases hold : bucket[index]? with _ | old
          · simp [hold] at h
          · simp only [hold, RResult.ok.injEq, Prod.mk.injEq] at h
            obtain ⟨hpm', -⟩ := h
            subst hpm'
            intro i b hib
            simp only at hib
            rcases getElem?_set_cases _ _ _ _ _ hib with hb1 | hb2
            · subst hb1; rw [List.length_set]; exact hblen
            · exact hb _ _ hb2

/-- The bound hypothesis of `c9_bucket_bound` holds after inserting one
peer into the fresh state. -/
theorem c9pmAfter_bound : ∀ (i : Nat) (b : List Peer),
    c9pmAfter.buckets[i]? = some b → b.length ≤ 20 := by
  intro i b h
  unfold c9pmAfter at h
  simp only at h
  rcases getElem?_set_cases _ _ _ _ _ h with hb1 | hb2
  · subst hb1; simp
  · exact freshBuckets_bound _ _ hb2

/-- Witness for `c9_bucket_bound`: inserting peer `4000…0` into the fresh
all-empty state. -/
theorem c9_bucket_bound_witness :
    (∀ (i : Nat) (b : List Peer), freshPM.buckets[i]? = some b →
      b.length ≤ 20) ∧
    (∀ (i : Nat) (b : List Peer), c9pmAfter.buckets[i]? = some b →
      b.length ≤ 20) :=
  ⟨freshBuckets_bound,
   c9_bucket_bound freshPM peerAddrA id4000 false 0 c9pmAfter c9peer
     freshBuckets_bound (by decide)⟩

/-- C2 (amended) — `add_peer` returns `BucketFull` whenever the target
bucket already holds 20 entries, even if the peer is already present
(the capacity check precedes the lookup); when the peer is present and
the bucket is below capacity, the call succeeds, sets `active` as
asserted, sets `last_seen` to now exactly when `active`, updates the
entry in place (it is not moved to the tail) and returns it. -/
theorem c2_update_semantics (pm : PMState) (sa : SocketAddr) (pid : String)
    (act : Bool) (now d : Nat) (bucket : List Peer)
    (hd : calculateXorDistance pm.local_node_id pid = RResult.ok d)
    (hbk : pm.buckets[leadingZeros32 d]? = some bucket) :
    (20 ≤ bucket.length →
      addPeer pm sa pid act now = RResult.error bucketFullMsg) ∧
    (∀ (index : Nat) (old : Peer), bucket.length < 20 →
      bucket.findIdx? (fun q => q.node_id == pid) = some index →
      bucket[index]? = some old →
      addPeer pm sa pid act now =
        RResult.ok
          ({ pm with
             buckets := pm.buckets.set (leadingZeros32 d)
               (bucket.set index
                 { old with
                   active := act
                   last_seen := if act then some now else old.last_seen }) },
           { old with
             active := act
             last_seen := if act then some now else old.last_seen })) := by
  constructor
  · intro hfull
    unfold addPeer
    simp only [hd, hbk, if_pos hfull]
  · intro index old hlen hidx hold
    unfold addPeer
    simp only [hd, hbk, hidx, hold, if_neg (by omega : ¬ 20 ≤ bucket.length)]

/-- Witness for `c2_update_semantics`: updating the present peer `8000…0`
in a one-entry bucket succeeds in place. -/
theorem c2_update_semantics_witness :
    calculateXorDistance c2wPM.local_node_id id8000 = RResult.ok 152 ∧
    c2wPM.buckets[leadingZeros32 152]? = some [c2wPeerOld] ∧
    ([c2wPeerOld] : List Peer).length < 20 ∧
    List.findIdx? (fun q => q.node_id == id8000) [c2wPeerOld] = some 0 ∧
    addPeer c2wPM peerAddrA id8000 true 42 =
      RResult.ok
        ({ buckets := c2wPM.buckets.set 24 [c2wPeerNew],
           local_node_id := zeros40 }, c2wPeerNew) :=
  ⟨by decide, by decide, by decide, by decide,
   (c2_update_semantics c2wPM peerAddrA id8000 true 42 152 [c2wPeerOld]
     (by decide) (by decide)).2 0 c2wPeerOld (by decide) (by decide) (by decide)⟩

/-- C5 (amended) — `add_peer` applies no same-id check: with a valid
local id whose bucket-32 slot (the bucket of distance 0) is below
capacity and does not yet hold the local id, calling `add_peer` with the
local id succeeds and appends the local node as its own peer, so states
containing the local node as a peer are reachable. -/
theorem c5_self_id_accepted (pm : PMState) (sa : SocketAddr) (act : Bool)
    (now : Nat) (bs : List Nat) (bucket : List Peer)
    (hv : sha1ToBytes pm.local_node_id.data = some (Except.ok bs))
    (hbk : pm.buckets[32]? = some bucket)
    (hlen : bucket.length < 20)
    (habs : bucket.findIdx? (fun q => q.node_id == pm.local_node_id) = none) :
    addPeer pm sa pm.local_node_id act now =
      RResult.ok
        ({ pm with
           buckets := pm.buckets.set 32 (bucket ++
             [{ active := act
                address := sa.ip
                first_seen := now
                last_seen := if act then some now else none
                node_id := pm.local_node_id
                port := sa.port }]) },
         { active := act
           address := sa.ip
           first_seen := now
           last_seen := if act then some now else none
           node_id := pm.local_node_id
           port := sa.port }) := by
  have hcd : calculateXorDistance pm.local_node_id pm.local_node_id =
      RResult.ok 0 := calculateXorDistance_self _ _ hv
  unfold addPeer
  simp only [hcd, show leadingZeros32 0 = 32 from rfl, hbk, habs,
    if_neg (by omega : ¬ 20 ≤ bucket.length)]

/-- Witness for `c5_self_id_accepted`: the fresh all-zero state accepts
its own id into bucket 32. -/
theorem c5_self_id_accepted_witness :
    sha1ToBytes freshPM.local_node_id.data = some (Except.ok c7zeroBytes) ∧
    freshPM.buckets[32]? = some [] ∧
    addPeer freshPM peerAddrA freshPM.local_node_id true 7 =
      RResult.ok
        ({ buckets := freshBuckets.set 32 [c5peer],
           local_node_id := zeros40 }, c5peer) :=
  ⟨by decide, by decide,
   c5_self_id_accepted freshPM peerAddrA true 7 c7zeroBytes []
     (by decide) (by decide) (by decide) (by decide)⟩

/-- C7 (amended) — on valid ids `calculate_xor_distance` is symmetric and
maps equal ids to 0 (it returns the first-differing-byte scalar, not the
XOR integer; see `c7_not_xor_integer`). -/
theorem c7_symmetric_and_self_zero (a b : String) (ba bb : List Nat)
    (ha : sha1ToBytes a.data = some (Except.ok ba))
    (hb : sha1ToBytes b.data = some (Except.ok bb)) :
    calculateXorDistance a b = calculateXorDistance b a ∧
    calculateXorDistance a a = RResult.ok 0 := by
  constructor
  · unfold calculateXorDistance
    simp only [ha, hb, RResult.ok.injEq]
    simp only [distanceToNode]
    exact distanceToNodeGo_comm ba bb 0
  · exact calculateXorDistance_self a ba ha

/-- Witness for `c7_symmetric_and_self_zero` on ids `8000…0`, `4000…0`. -/
theorem c7_symmetric_and_self_zero_witness :
    sha1ToBytes id8000.data = some (Except.ok c7msbBytes) ∧
    sha1ToBytes id4000.data = some (Except.ok c7msb4Bytes) ∧
    calculateXorDistance id8000 id4000 = calculateXorDistance id4000 id8000 ∧
    calculateXorDistance id8000 id8000 = RResult.ok 0 :=
  ⟨by decide, by decide,
   (c7_symmetric_and_self_zero id8000 id4000 c7msbBytes c7msb4Bytes
     (by decide) (by decide)).1,
   (c7_symmetric_and_self_zero id8000 id4000 c7msbBytes c7msb4Bytes
     (by decide) (by decide)).2⟩

/-! ## Support lemmas for the parser theorem (C8) -/

theorem hexDigitVal_of_lower (c : Char) (h : IsLowerHexDigit c) :
    ∃ d, hexDigitVal c = some d ∧ d ≤ 15 := by
  unfold hexDigitVal
  rcases h with ⟨h1, h2⟩ | ⟨h1, h2⟩
  · rw [if_pos ⟨h1, h2⟩]
    exact ⟨_, rfl, by omega⟩
  · rw [if_neg (by omega), if_pos ⟨h1, h2⟩]
    exact ⟨_, rfl, by omega⟩

theorem lower_not_sign (c : Char) (h : IsLowerHexDigit c) :
    ¬ c = '+' ∧ ¬ c = '-' := by
  constructor
  · intro hc; subst hc; revert h; decide
  · intro hc; subst hc; revert h; decide

theorem fromStrRadix16_pair (c1 c2 : Char) (h1 : IsLowerHexDigit c1)
    (h2 : IsLowerHexDigit c2) :
    ∃ v, fromStrRadix16 [c1, c2] = Except.ok v := by
  obtain ⟨hp, hm⟩ := lower_not_sign c1 h1
  obtain ⟨d1, hd1, hb1⟩ := hexDigitVal_of_lower c1 h1
  obtain ⟨d2, hd2, hb2⟩ := hexDigitVal_of_lower c2 h2
  refine ⟨(0 * 16 + d1) * 16 + d2, ?_⟩
  simp only [fromStrRadix16]
  rw [if_neg hp, if_neg hm]
  simp only [fromStrRadix16Go, hd1]
  rw [if_neg (show ¬ (false = true) by decide),
    if_pos (show 0 * 16 + d1 ≤ 255 by omega)]
  simp only [fromStrRadix16Go, hd2]
  rw [if_neg (show ¬ (false = true) by decide),
    if_pos (show (0 * 16 + d1) * 16 + d2 ≤ 255 by omega)]

theorem take_drop_subset_take (s : List Char) :
    ∀ (m k n : Nat), m + k ≤ n → ∀ x ∈ (s.drop m).take k, x ∈ s.take n := by
  induction s with
  | nil => intro m k n _ x hx; simp at hx
  | cons c cs ih =>
    intro m k n hmk x hx
    cases m with
    | zero =>
      cases n with
      | zero =>
        have hk : k = 0 := by omega
        subst hk; simp at hx
      | succ n' =>
        cases k with
        | zero => simp at hx
        | succ k' =>
          simp only [List.drop_zero, List.take_cons] at hx ⊢
          rcases List.mem_cons.mp hx with hx1 | hx2
          · exact List.mem_cons.mpr (Or.inl hx1)
          · exact List.mem_cons.mpr
              (Or.inr (ih 0 k' n' (by omega) x (by simpa using hx2)))
    | succ m' =>
      cases n with
      | zero => omega
      | succ n' =>
        simp only [List.drop_succ_cons, List.take_cons] at hx ⊢
        exact List.mem_cons.mpr (Or.inr (ih m' k n' (by omega) x hx))

theorem sha1ToBytesGo_ok (s : List Char) : ∀ (fuel i : Nat) (acc : List Nat),
    i + fuel = 20 → 40 ≤ s.length → (∀ c ∈ s.take 40, IsLowerHexDigit c) →
    ∃ bs, sha1ToBytesGo s fuel i acc = some (Except.ok bs) ∧
      bs.length = fuel + acc.length := by
  intro fuel
  induction fuel with
  | zero =>
    intro i acc _ _ _
    exact ⟨acc.reverse, rfl, by simp⟩
  | succ n ih =>
    intro i acc hi hlen hhex
    have hle : i * 2 + 2 ≤ 40 := by omega
    have hguard : ¬ (s.length < i * 2 + 2) := by omega
    have hchunklen : ((s.drop (i * 2)).take 2).length = 2 := by
      rw [List.length_take, List.length_drop]; omega
    obtain ⟨c1, c2, hchunk⟩ := List.length_eq_two.mp hchunklen
    have hc1 : IsLowerHexDigit c1 :=
      hhex c1 (take_drop_subset_take s (i * 2) 2 40 hle c1 (by rw [hchunk]; simp))
    have hc2 : IsLowerHexDigit c2 :=
      hhex c2 (take_drop_subset_take s (i * 2) 2 40 hle c2 (by rw [hchunk]; simp))
    obtain ⟨v, hv⟩ := fromStrRadix16_pair c1 c2 hc1 hc2
    obtain ⟨bs, hbs, hlenbs⟩ := ih (i + 1) (v :: acc) (by omega) hlen hhex
    refine ⟨bs, ?_, by simp at hlenbs ⊢; omega⟩
    rw [sha1ToBytesGo, if_neg hguard, hchunk, hv]
    exact hbs

theorem sha1ToBytesGo_ok_length (s : List Char) :
    ∀ (fuel i : Nat) (acc bs : List Nat),
      sha1ToBytesGo s fuel i acc = some (Except.ok bs) → 1 ≤ fuel →
      2 * (i + fuel) ≤ s.length := by
  intro fuel
  induction fuel with
  | zero => intro i acc bs _ h1; omega
  | succ n ih =>
    intro i acc bs h _
    rw [sha1ToBytesGo] at h
    by_cases hg : s.length < i * 2 + 2
    · rw [if_pos hg] at h; simp at h
    · rw [if_neg hg] at h
      cases hfr : fromStrRadix16 ((s.drop (i * 2)).take 2) with
      | error e => simp only [hfr] at h; simp at h
      | ok b =>
        simp only [hfr] at h
        cases n with
        | zero => omega
        | succ m =>
          have := ih (i + 1) (b :: acc) bs h (by omega)
          omega

/-- C8 (amended) — `sha1_to_bytes` reads only the first 40 characters,
two at a time, through `u8::from_str_radix(_, 16)`: every string whose
first 40 characters are lowercase hex is accepted (longer strings
included, their tail ignored), and no string shorter than 40 characters
is ever accepted — such strings yield a parse error or panic on the
out-of-bounds slice (see `c8_parsing_partial` for the panic and for the
acceptance of uppercase input). -/
theorem c8_parse_behaviour :
    (∀ s : String, 40 ≤ s.data.length →
      (∀ c ∈ s.data.take 40, IsLowerHexDigit c) →
      ∃ bs, sha1ToBytes s.data = some (Except.ok bs) ∧ bs.length = 20) ∧
    (∀ s : String, s.data.length < 40 →
      ∀ bs, sha1ToBytes s.data ≠ some (Except.ok bs)) := by
  constructor
  · intro s hlen hhex
    obtain ⟨bs, h1, h2⟩ := sha1ToBytesGo_ok s.data 20 0 [] (by omega) hlen hhex
    exact ⟨bs, h1, by simpa using h2⟩
  · intro s hlen bs h
    have := sha1ToBytesGo_ok_length s.data 20 0 [] bs h (by omega)
    omega

/-- Witness for `c8_parse_behaviour`: the 40-hex string `aaaa…a` is
accepted; the 3-character string `abc` is never accepted. -/
theorem c8_parse_behaviour_witness :
    (40 ≤ c4aid.data.length ∧
      (∀ c ∈ c4aid.data.take 40, IsLowerHexDigit c) ∧
      ∃ bs, sha1ToBytes c4aid.data = some (Except.ok bs) ∧ bs.length = 20) ∧
    (c8witShort.data.length < 40 ∧
      ∀ bs, sha1ToBytes c8witShort.data ≠ some (Except.ok bs)) :=
  ⟨⟨by decide, by decide, c8_parse_behaviour.1 c4aid (by decide) (by decide)⟩,
   ⟨by decide, c8_parse_behaviour.2 c8witShort (by decide)⟩⟩

/-! ## Support lemmas for the neighbour-lookup theorem (C3) -/

theorem accInv_nil (t : String) : AccInv t [] := by
  constructor
  · exact List.Pairwise.nil
  · intro e he; simp at he

theorem hasKey_cons (x : String × Peer) (xs : List (String × Peer))
    (k : String) : hasKey (x :: xs) k = ((x.1 == k) || hasKey xs k) := by
  unfold hasKey
  cases hx : (x.1 == k) with
  | true => simp [List.find?_cons, hx]
  | false => simp [List.find?_cons, hx]

theorem hasKey_false_not_mem (m : List (String × Peer)) (k : String)
    (h : ¬ hasKey m k = true) : ∀ e ∈ m, e.1 ≠ k := by
  induction m with
  | nil => intro e he; simp at he
  | cons x xs ih =>
    rw [hasKey_cons] at h
    simp only [Bool.or_eq_true, not_or] at h
    obtain ⟨h1, h2⟩ := h
    intro e he
    rcases List.mem_cons.mp he with rfl | hmem
    · simpa using h1
    · exact ih h2 e hmem

theorem insertNodes_inv (t : String) :
    ∀ (nodes : List Peer) (acc : List (String × Peer)),
      AccInv t acc → acc.length < 20 →
      AccInv t (insertNodes t acc nodes).1 ∧
      (insertNodes t acc nodes).1.length ≤ 20 ∧
      ((insertNodes t acc nodes).2 = false →
        (insertNodes t acc nodes).1.length < 20) := by
  intro nodes
  induction nodes with
  | nil =>
    intro acc hinv hlt
    simp only [insertNodes]
    exact ⟨hinv, by omega, fun _ => hlt⟩
  | cons node rest ih =>
    intro acc hinv hlt
    by_cases h1 : (node.node_id == t) = true
    · simp only [insertNodes, if_pos h1]
      exact ih acc hinv hlt
    · by_cases h2 : hasKey acc node.node_id = true
      · simp only [insertNodes, if_neg h1, if_pos h2]
        exact ih acc hinv hlt
      · have hfresh : ∀ e ∈ acc, e.1 ≠ node.node_id :=
          hasKey_false_not_mem acc _ h2
        have hnt : node.node_id ≠ t := by simpa using h1
        have hinv' : AccInv t (acc ++ [(node.node_id, node)]) := by
          obtain ⟨hpw, hbind⟩ := hinv
          constructor
          · rw [List.pairwise_append]
            refine ⟨hpw, by simp, ?_⟩
            intro a ha b hb
            simp only [List.mem_singleton] at hb
            subst hb
            exact hfresh a ha
          · intro e he
            rcases List.mem_append.mp he with hmem | hmem
            · exact hbind e hmem
            · simp only [List.mem_singleton] at hmem
              subst hmem
              exact ⟨rfl, hnt⟩
        by_cases h3 : 20 ≤ (acc ++ [(node.node_id, node)]).length
        · simp only [insertNodes, if_neg h1, if_neg h2, if_pos h3]
          refine ⟨hinv', by simp; omega, ?_⟩
          intro hf; simp at hf
        · simp only [insertNodes, if_neg h1, if_neg h2, if_neg h3]
          exact ih _ hinv' (by simp at h3 ⊢; omega)

theorem upperStep_inv (pm : PMState) (t : String) (incl : Bool)
    (tbi offset : Nat) (acc acc1 : List (String × Peer)) (stop : Bool)
    (hinv : AccInv t acc) (hlt : acc.length < 20)
    (h : upperStep pm t incl tbi offset acc = RResult.ok (acc1, stop)) :
    AccInv t acc1 ∧ acc1.length ≤ 20 ∧ (stop = false → acc1.length < 20) := by
  unfold upperStep at h
  cases hfp : findPeersAtOffset pm t (tbi + offset) incl with
  | panic => rw [hfp] at h; simp at h
  | error e =>
    simp only [hfp, RResult.ok.injEq, Prod.mk.injEq] at h
    obtain ⟨h1, h2⟩ := h
    subst h1; subst h2
    exact ⟨hinv, by omega, fun _ => hlt⟩
  | ok nodes =>
    simp only [hfp, RResult.ok.injEq] at h
    have hins := insertNodes_inv t nodes acc hinv hlt
    rw [h] at hins
    simpa using hins

theorem lowerStep_inv (pm : PMState) (t : String) (incl : Bool)
    (tbi offset : Nat) (acc acc1 : List (String × Peer)) (stop : Bool)
    (hinv : AccInv t acc) (hlt : acc.length < 20)
    (h : lowerStep pm t incl tbi offset acc = RResult.ok (acc1, stop)) :
    AccInv t acc1 ∧ acc1.length ≤ 20 ∧ (stop = false → acc1.length < 20) := by
  unfold lowerStep at h
  by_cases hg : 0 < offset ∧ offset ≤ tbi
  · rw [if_pos hg] at h
    cases hfp : findPeersAtOffset pm t (tbi - offset) incl with
    | panic => rw [hfp] at h; simp at h
    | error e =>
      simp only [hfp, RResult.ok.injEq, Prod.mk.injEq] at h
      obtain ⟨h1, h2⟩ := h
      subst h1; subst h2
      exact ⟨hinv, by omega, fun _ => hlt⟩
    | ok nodes =>
      simp only [hfp, RResult.ok.injEq] at h
      have hins := insertNodes_inv t nodes acc hinv hlt
      rw [h] at hins
      simpa using hins
  · rw [if_neg hg] at h
    simp only [RResult.ok.injEq, Prod.mk.injEq] at h
    obtain ⟨h1, h2⟩ := h
    subst h1; subst h2
    exact ⟨hinv, by omega, fun _ => hlt⟩

theorem findNearbyGo_inv (pm : PMState) (t : String) (incl : Bool)
    (tbi : Nat) : ∀ (fuel offset : Nat) (acc res : List (String × Peer)),
      AccInv t acc → acc.length < 20 →
      findNearbyGo pm t incl tbi fuel offset acc = RResult.ok res →
      AccInv t res ∧ res.length ≤ 20 := by
  intro fuel
  induction fuel with
  | zero =>
    intro offset acc res hinv hlt h
    simp only [findNearbyGo, RResult.ok.injEq] at h
    subst h
    exact ⟨hinv, by omega⟩
  | succ n ih =>
    intro offset acc res hinv hlt h
    rw [findNearbyGo] at h
    cases hup : upperStep pm t incl tbi offset acc with
    | panic => rw [hup] at h; simp at h
    | error e => rw [hup] at h; simp at h
    | ok pr =>
      obtain ⟨acc1, stop1⟩ := pr
      have hstep := upperStep_inv pm t incl tbi offset acc acc1 stop1 hinv hlt hup
      cases stop1 with
      | true =>
        simp only [hup, RResult.ok.injEq] at h
        subst h
        exact ⟨hstep.1, hstep.2.1⟩
      | false =>
        simp only [hup] at h
        cases hlo : lowerStep pm t incl tbi offset acc1 with
        | panic => rw [hlo] at h; simp at h
        | error e => rw [hlo] at h; simp at h
        | ok pr2 =>
          obtain ⟨acc2, stop2⟩ := pr2
          have hstep2 := lowerStep_inv pm t incl tbi offset acc1 acc2 stop2
            hstep.1 (hstep.2.2 rfl) hlo
          cases stop2 with
          | true =>
            simp only [hlo, RResult.ok.injEq] at h
            subst h
            exact ⟨hstep2.1, hstep2.2.1⟩
          | false =>
            simp only [hlo] at h
            exact ih (offset + 1) acc2 res hstep2.1 (hstep2.2.2 rfl) h

theorem findNearbyPeers_inv (pm : PMState) (t : String) (incl : Bool)
    (l : List Peer) (h : findNearbyPeers pm t incl = RResult.ok l) :
    ∃ acc, AccInv t acc ∧ acc.length ≤ 20 ∧ l = mapVals acc := by
  unfold findNearbyPeers at h
  cases hcd : calculateXorDistance pm.local_node_id t with
  | panic => rw [hcd] at h; simp at h
  | error e => rw [hcd] at h; simp at h
  | ok d =>
    simp only [hcd] at h
    cases hgo : findNearbyGo pm t incl (leadingZeros32 d) 160 0 [] with
    | panic => rw [hgo] at h; simp at h
    | error e => rw [hgo] at h; simp at h
    | ok acc =>
      simp only [hgo, RResult.ok.injEq] at h
      have hres := findNearbyGo_inv pm t incl (leadingZeros32 d) 160 0 [] acc
        (accInv_nil t) (by simp) hgo
      exact ⟨acc, hres.1, hres.2, h.symm⟩

theorem accInv_props (t : String) (acc : List (String × Peer))
    (h : AccInv t acc) :
    (mapVals acc).Pairwise (fun a b => a.node_id ≠ b.node_id) ∧
    ∀ p ∈ mapVals acc, p.node_id ≠ t := by
  obtain ⟨hpw, hbind⟩ := h
  constructor
  · unfold mapVals
    rw [List.pairwise_map]
    apply List.Pairwise.imp_of_mem ?_ hpw
    intro a b ha hb hab
    rw [← (hbind a ha).1, ← (hbind b hb).1]
    exact hab
  · intro p hp
    obtain ⟨e, he, rfl⟩ := List.mem_map.mp hp
    exact (hbind e he).2

theorem accInv_reKey (t : String) (acc : List (String × Peer))
    (h : AccInv t acc) :
    AccInv t ((mapVals acc).map (fun p => (p.node_id, p))) := by
  obtain ⟨hpw1, hp2⟩ := accInv_props t acc h
  constructor
  · rw [List.pairwise_map]
    exact hpw1
  · intro e he
    obtain ⟨p, hp, rfl⟩ := List.mem_map.mp he
    exact ⟨rfl, hp2 p hp⟩

theorem fillLoop_inv (t : String) :
    ∀ (ps : List Peer) (m : List (String × Peer)),
      AccInv t m → m.length < 20 → (∀ p ∈ ps, p.node_id ≠ t) →
      AccInv t (fillLoop m ps) ∧ (fillLoop m ps).length ≤ 20 := by
  intro ps
  induction ps with
  | nil =>
    intro m hinv hlt _
    simp only [fillLoop]
    exact ⟨hinv, by omega⟩
  | cons p rest ih =>
    intro m hinv hlt hnt
    by_cases h2 : hasKey m p.node_id = true
    · simp only [fillLoop, if_pos h2]
      exact ih m hinv hlt (fun q hq => hnt q (List.mem_cons_of_mem p hq))
    · have hfresh := hasKey_false_not_mem m _ h2
      have hinv' : AccInv t (m ++ [(p.node_id, p)]) := by
        obtain ⟨hpw, hbind⟩ := hinv
        constructor
        · rw [List.pairwise_append]
          refine ⟨hpw, by simp, ?_⟩
          intro a ha b hb
          simp only [List.mem_singleton] at hb
          subst hb
          exact hfresh a ha
        · intro e he
          rcases List.mem_append.mp he with hmem | hmem
          · exact hbind e hmem
          · simp only [List.mem_singleton] at hmem
            subst hmem
            exact ⟨rfl, hnt p (List.mem_cons_self p rest)⟩
      by_cases h3 : 20 ≤ (m ++ [(p.node_id, p)]).length
      · simp only [fillLoop, if_neg h2, if_pos h3]
        exact ⟨hinv', by simp; omega⟩
      · simp only [fillLoop, if_neg h2, if_neg h3]
        exact ih _ hinv' (by simp at h3 ⊢; omega)
          (fun q hq => hnt q (List.mem_cons_of_mem p hq))

/-- C3 (amended) — every list returned by `nearby_peers` holds at most 20
peers, with pairwise-distinct `node_id`s, none equal to the target id.
The returned order is the accumulation order of the peer map (arbitrary
for the Rust `HashMap`) and is not sorted by XOR distance — see
`c3_not_distance_sorted`. -/
theorem c3_nearby_props (pm : PMState) (t : String) (l : List Peer)
    (h : nearbyPeers pm t = RResult.ok l) :
    l.length ≤ 20 ∧ l.Pairwise (fun a b => a.node_id ≠ b.node_id) ∧
    ∀ p ∈ l, p.node_id ≠ t := by
  unfold nearbyPeers at h
  cases hp1 : findNearbyPeers pm t false with
  | panic => rw [hp1] at h; simp at h
  | error e => rw [hp1] at h; simp at h
  | ok seenList =>
    simp only [hp1] at h
    obtain ⟨acc, hai, hal, hle⟩ := findNearbyPeers_inv pm t false seenList hp1
    subst hle
    have hm : AccInv t ((mapVals acc).map (fun p => (p.node_id, p))) :=
      accInv_reKey t acc hai
    by_cases hsz : ((mapVals acc).map (fun p => (p.node_id, p))).length < 20
    · rw [if_pos hsz] at h
      cases hp2 : findNearbyPeers pm t true with
      | panic => rw [hp2] at h; simp at h
      | error e => rw [hp2] at h; simp at h
      | ok unseenList =>
        simp only [hp2, RResult.ok.injEq] at h
        obtain ⟨acc2, hai2, -, hle2⟩ := findNearbyPeers_inv pm t true unseenList hp2
        have hnt2 : ∀ p ∈ unseenList, p.node_id ≠ t := by
          subst hle2
          exact (accInv_props t acc2 hai2).2
        have hfl := fillLoop_inv t unseenList _ hm hsz hnt2
        subst h
        obtain ⟨hinvf, hlenf⟩ := hfl
        obtain ⟨hpwf, hntf⟩ := accInv_props t _ hinvf
        exact ⟨by simpa [mapVals] using hlenf, hpwf, hntf⟩
    · rw [if_neg hsz] at h
      simp only [RResult.ok.injEq] at h
      subst h
      obtain ⟨hpwf, hntf⟩ := accInv_props t _ hm
      refine ⟨?_, hpwf, hntf⟩
      simp only [mapVals, List.length_map]
      simpa [mapVals] using hal

/-- Witness for `c3_nearby_props`: the fresh state returns the empty
list for target `f000…0`. -/
theorem c3_nearby_props_witness :
    nearbyPeers freshPM c3target = RResult.ok [] ∧
    (([] : List Peer).length ≤ 20 ∧
      ([] : List Peer).Pairwise (fun a b => a.node_id ≠ b.node_id) ∧
      ∀ p ∈ ([] : List Peer), p.node_id ≠ c3target) :=
  ⟨by decide, c3_nearby_props freshPM c3target [] (by decide)⟩

/-! ## Support lemmas for the TOML round trip (C10) -/

theorem charToNat_inj (a b : Char) (h : a.toNat = b.toNat) : a = b := by
  rw [← Char.ofNat_toNat a, ← Char.ofNat_toNat b, h]

theorem charListLt_irrefl : ∀ l, charListLt l l = false := by
  intro l
  induction l with
  | nil => rfl
  | cons a as ih => simp only [charListLt, if_pos rfl]; exact ih

theorem charListLt_trans : ∀ la lb lc, charListLt la lb = true →
    charListLt lb lc = true → charListLt la lc = true := by
  intro la
  induction la with
  | nil =>
    intro lb lc h1 h2
    cases lb with
    | nil => simp [charListLt] at h1
    | cons b bs =>
      cases lc with
      | nil => simp [charListLt] at h2
      | cons c cs => rfl
  | cons a as ih =>
    intro lb lc h1 h2
    cases lb with
    | nil => simp [charListLt] at h1
    | cons b bs =>
      cases lc with
      | nil => simp [charListLt] at h2
      | cons c cs =>
        simp only [charListLt] at h1 h2 ⊢
        by_cases hab : a = b
        · subst hab
          rw [if_pos rfl] at h1
          by_cases hbc : a = c
          · subst hbc
            rw [if_pos rfl] at h2 ⊢
            exact ih bs cs h1 h2
          · rw [if_neg hbc] at h2 ⊢
            exact h2
        · rw [if_neg hab] at h1
          by_cases hbc : b = c
          · subst hbc
            rw [if_neg hab]
            exact h1
          · rw [if_neg hbc] at h2
            by_cases hac : a = c
            · subst hac
              simp only [decide_eq_true_eq] at h1 h2
              omega
            · rw [if_neg hac]
              simp only [decide_eq_true_eq] at h1 h2 ⊢
              omega

theorem charListLt_connex : ∀ la lb, la ≠ lb →
    charListLt la lb = true ∨ charListLt lb la = true := by
  intro la
  induction la with
  | nil =>
    intro lb hne
    cases lb with
    | nil => exact absurd rfl hne
    | cons b bs => left; rfl
  | cons a as ih =>
    intro lb hne
    cases lb with
    | nil => right; rfl
    | cons b bs =>
      by_cases hab : a = b
      · subst hab
        have hne' : as ≠ bs := fun h => hne (by rw [h])
        rcases ih bs hne' with h | h
        · left; simp only [charListLt, if_pos rfl]; exact h
        · right; simp only [charListLt, if_pos rfl]; exact h
      · have hnn : a.toNat ≠ b.toNat := fun h => hab (charToNat_inj a b h)
        rcases Nat.lt_or_ge a.toNat b.toNat with h | h
        · left
          simp only [charListLt, if_neg hab]
          exact decide_eq_true h
        · have hlt : b.toNat < a.toNat := by omega
          right
          simp only [charListLt, if_neg (fun hh : b = a => hab hh.symm)]
          exact decide_eq_true hlt

theorem strLt_irrefl (s : String) : strLt s s = false :=
  charListLt_irrefl s.data

theorem strLt_trans (a b c : String) (h1 : strLt a b = true)
    (h2 : strLt b c = true) : strLt a c = true :=
  charListLt_trans a.data b.data c.data h1 h2

theorem strLt_connex (a b : String) (h : a ≠ b) :
    strLt a b = true ∨ strLt b a = true :=
  charListLt_connex a.data b.data (fun hd => h (by cases a; cases b; simp_all))

theorem mem_tableInsert (k : String) (v : Toml) :
    ∀ (t : List (String × Toml)) (x : String × Toml),
      x ∈ tableInsert k v t → x = (k, v) ∨ x ∈ t := by
  intro t
  induction t with
  | nil =>
    intro x h
    simp only [tableInsert, List.mem_singleton] at h
    exact Or.inl h
  | cons y ys ih =>
    intro x h
    simp only [tableInsert] at h
    by_cases h1 : strLt k y.1 = true
    · rw [if_pos h1] at h
      rcases List.mem_cons.mp h with rfl | h2
      · exact Or.inl rfl
      · exact Or.inr h2
    · rw [if_neg h1] at h
      by_cases h2 : k = y.1
      · rw [if_pos h2] at h
        rcases List.mem_cons.mp h with rfl | h3
        · exact Or.inl rfl
        · exact Or.inr (List.mem_cons_of_mem y h3)
      · rw [if_neg h2] at h
        rcases List.mem_cons.mp h with rfl | h3
        · exact Or.inr (List.mem_cons_self y ys)
        · rcases ih x h3 with h4 | h4
          · exact Or.inl h4
          · exact Or.inr (List.mem_cons_of_mem y h4)

theorem sortedKeys_tableInsert (k : String) (v : Toml) :
    ∀ t, SortedKeys t → SortedKeys (tableInsert k v t) := by
  intro t
  induction t with
  | nil =>
    intro _
    unfold SortedKeys
    simp [tableInsert]
  | cons y ys ih =>
    intro hs
    obtain ⟨hy, hys⟩ := List.pairwise_cons.mp hs
    simp only [tableInsert]
    by_cases h1 : strLt k y.1 = true
    · rw [if_pos h1]
      unfold SortedKeys
      rw [List.pairwise_cons]
      constructor
      · intro b hb
        rcases List.mem_cons.mp hb with rfl | hmem
        · exact h1
        · exact strLt_trans _ _ _ h1 (hy b hmem)
      · exact hs
    · rw [if_neg h1]
      by_cases h2 : k = y.1
      · rw [if_pos h2]
        unfold SortedKeys
        rw [List.pairwise_cons]
        constructor
        · intro b hb
          show strLt k b.1 = true
          rw [h2]
          exact hy b hb
        · exact hys
      · rw [if_neg h2]
        have hky : strLt y.1 k = true := by
          rcases strLt_connex k y.1 h2 with h | h
          · exact absurd h h1
          · exact h
        unfold SortedKeys
        rw [List.pairwise_cons]
        constructor
        · intro b hb
          rcases mem_tableInsert k v ys b hb with rfl | hmem
          · exact hky
          · exact hy b hmem
        · exact ih hys

theorem perm_tableInsert (k : String) (v : Toml) :
    ∀ t, (∀ e ∈ t, e.1 ≠ k) → (tableInsert k v t).Perm ((k, v) :: t) := by
  intro t
  induction t with
  | nil => intro _; exact List.Perm.refl _
  | cons y ys ih =>
    intro hfr
    simp only [tableInsert]
    by_cases h1 : strLt k y.1 = true
    · rw [if_pos h1]
    · rw [if_neg h1]
      by_cases h2 : k = y.1
      · exact absurd h2.symm (hfr y (List.mem_cons_self y ys))
      · rw [if_neg h2]
        have hstep : (y :: tableInsert k v ys).Perm (y :: (k, v) :: ys) :=
          List.Perm.cons y (ih (fun e he => hfr e (List.mem_cons_of_mem y he)))
        exact hstep.trans (List.Perm.swap (k, v) y ys)

theorem foldl_insert_sorted :
    ∀ (l : List NodePeer) (t : List (String × Toml)), SortedKeys t →
      SortedKeys (l.foldl
        (fun t p => tableInsert p.node_id (Toml.table (peerToTable p)) t) t) := by
  intro l
  induction l with
  | nil => intro t hs; simpa using hs
  | cons p rest ih =>
    intro t hs
    simp only [List.foldl_cons]
    exact ih _ (sortedKeys_tableInsert _ _ t hs)

theorem foldl_insert_mem :
    ∀ (l : List NodePeer) (t : List (String × Toml)) (x : String × Toml),
      x ∈ l.foldl
        (fun t p => tableInsert p.node_id (Toml.table (peerToTable p)) t) t →
      x ∈ t ∨ ∃ p ∈ l, x = entryPair p := by
  intro l
  induction l with
  | nil => intro t x h; exact Or.inl (by simpa using h)
  | cons p rest ih =>
    intro t x h
    simp only [List.foldl_cons] at h
    rcases ih _ x h with h1 | h1
    · rcases mem_tableInsert _ _ t x h1 with rfl | h2
      · exact Or.inr ⟨p, List.mem_cons_self p rest, rfl⟩
      · exact Or.inl h2
    · obtain ⟨q, hq, hx⟩ := h1
      exact Or.inr ⟨q, List.mem_cons_of_mem p hq, hx⟩

theorem foldl_insert_perm :
    ∀ (l : List NodePeer) (t : List (String × Toml)),
      (∀ p ∈ l, ∀ e ∈ t, e.1 ≠ p.node_id) →
      (l.map (fun p => p.node_id)).Nodup →
      (l.foldl
        (fun t p => tableInsert p.node_id (Toml.table (peerToTable p)) t) t).Perm
        (t ++ l.map entryPair) := by
  intro l
  induction l with
  | nil => intro t _ _; simp
  | cons p rest ih =>
    intro t hdisj hnd
    simp only [List.foldl_cons]
    have hfr : ∀ e ∈ t, e.1 ≠ p.node_id := hdisj p (List.mem_cons_self p rest)
    have hndc : (p.node_id :: rest.map (fun p => p.node_id)).Nodup := by
      simpa using hnd
    have hnd0 := List.nodup_cons.mp hndc
    have hdisj' : ∀ q ∈ rest,
        ∀ e ∈ tableInsert p.node_id (Toml.table (peerToTable p)) t,
          e.1 ≠ q.node_id := by
      intro q hq e he
      rcases mem_tableInsert _ _ t e he with rfl | h2
      · show p.node_id ≠ q.node_id
        intro hh
        exact hnd0.1 (hh ▸ List.mem_map.mpr ⟨q, hq, rfl⟩)
      · exact hdisj q (List.mem_cons_of_mem p hq) e h2
    have hrec := ih (tableInsert p.node_id (Toml.table (peerToTable p)) t)
      hdisj' hnd0.2
    refine hrec.trans ?_
    have h2 : (tableInsert p.node_id (Toml.table (peerToTable p)) t ++
        rest.map entryPair).Perm
        (((p.node_id, Toml.table (peerToTable p)) :: t) ++ rest.map entryPair) :=
      (perm_tableInsert _ _ t hfr).append_right _
    refine h2.trans ?_
    simp only [List.cons_append, List.map_cons]
    exact List.perm_middle.symm

theorem i64AsU64_u64AsI64 (n : Nat) (h : n < 18446744073709551616) :
    i64AsU64 (u64AsI64 n) = n := by
  unfold u64AsI64 i64AsU64
  omega

theorem i64AsU16_ofNat (n : Nat) (h : n < 65536) :
    i64AsU16 (n : Int) = n := by
  unfold i64AsU16
  omega

theorem peerToTable_explicit (p : NodePeer) :
    peerToTable p =
      [(kAddress, Toml.str p.address),
       (kLastSeen, Toml.int (u64AsI64 p.last_seen)),
       (kNodeId, Toml.str p.node_id),
       (kPort, Toml.int (p.port : Int))] := rfl

theorem decodePeer_entry (p : NodePeer)
    (h64 : p.last_seen < 18446744073709551616) (h16 : p.port < 65536) :
    decodePeer (Toml.table (peerToTable p)) = RResult.ok p := by
  have hstep : decodePeer (Toml.table (peerToTable p)) =
      RResult.ok
        { address := p.address
          last_seen := i64AsU64 (u64AsI64 p.last_seen)
          node_id := p.node_id
          port := i64AsU16 (p.port : Int) } := rfl
  rw [hstep, i64AsU64_u64AsI64 p.last_seen h64, i64AsU16_ofNat p.port h16]

theorem peersFromTable_ok :
    ∀ (m : List (String × Toml)),
      (∀ x ∈ m, ∃ p : NodePeer, x = entryPair p ∧
        p.last_seen < 18446744073709551616 ∧ p.port < 65536) →
      ∃ out : List NodePeer, peersFromTable m = RResult.ok out ∧
        m = out.map entryPair ∧
        ∀ q ∈ out, q.last_seen < 18446744073709551616 ∧ q.port < 65536 := by
  intro m
  induction m with
  | nil => intro _; exact ⟨[], rfl, rfl, by simp⟩
  | cons x xs ih =>
    intro hx
    obtain ⟨p, hxp, h64, h16⟩ := hx x (List.mem_cons_self x xs)
    obtain ⟨out, hout, hmap, hbnd⟩ :=
      ih (fun y hy => hx y (List.mem_cons_of_mem x hy))
    subst hxp
    refine ⟨p :: out, ?_, ?_, ?_⟩
    · show peersFromTable ((p.node_id, Toml.table (peerToTable p)) :: xs) =
        RResult.ok (p :: out)
      rw [peersFromTable]
      simp only [decodePeer_entry p h64 h16, hout]
    · rw [List.map_cons, ← hmap]
    · intro q hq
      rcases List.mem_cons.mp hq with rfl | hh
      · exact ⟨h64, h16⟩
      · exact hbnd q hh

theorem entryPair_inj (a b : NodePeer)
    (ha : a.last_seen < 18446744073709551616)
    (hb : b.last_seen < 18446744073709551616)
    (h : entryPair a = entryPair b) : a = b := by
  unfold entryPair at h
  rw [peerToTable_explicit, peerToTable_explicit] at h
  simp only [Prod.mk.injEq, Toml.table.injEq, List.cons.injEq, Toml.str.injEq,
    Toml.int.injEq, and_true, true_and] at h
  obtain ⟨hid, haddr, hls, hid2, hpt⟩ := h
  have hls' : a.last_seen = b.last_seen := by
    unfold u64AsI64 at hls
    omega
  have hpt' : a.port = b.port := by exact_mod_cast hpt
  cases a; cases b; simp_all

/-- C10 — the TOML snapshot round trip: for every state whose peers'
`last_seen` and `port` fit their integer types, `deserialize_state`
applied to the table built by `serialize_state` succeeds, preserves the
node id, returns peers with pairwise-distinct `node_id`s listed in
ascending (byte-lexicographic) `node_id` order, and — when the input ids
are pairwise distinct — returns exactly the same set of peer records.
(Peers sharing a `node_id` are collapsed: the output ids are always
distinct because the `peers` table is keyed by `node_id`.) -/
theorem c10_roundtrip (s : NodeState)
    (hbounds : ∀ p ∈ s.peers,
      p.last_seen < 18446744073709551616 ∧ p.port < 65536) :
    ∃ out : NodeState,
      deserializeState (serializeState s) = RResult.ok out ∧
      out.node_id = s.node_id ∧
      out.peers.Pairwise (fun a b => strLt a.node_id b.node_id = true) ∧
      out.peers.Pairwise (fun a b => a.node_id ≠ b.node_id) ∧
      ((s.peers.map (fun p => p.node_id)).Nodup →
        out.peers.Perm s.peers) := by
  have hsorted : SortedKeys (s.peers.foldl
      (fun t p => tableInsert p.node_id (Toml.table (peerToTable p)) t) []) :=
    foldl_insert_sorted s.peers [] List.Pairwise.nil
  have hentries : ∀ x ∈ s.peers.foldl
      (fun t p => tableInsert p.node_id (Toml.table (peerToTable p)) t) [],
      ∃ p : NodePeer, x = entryPair p ∧
        p.last_seen < 18446744073709551616 ∧ p.port < 65536 := by
    intro x hx
    rcases foldl_insert_mem s.peers [] x hx with h1 | h1
    · simp at h1
    · obtain ⟨p, hp, hxp⟩ := h1
      exact ⟨p, hxp, (hbounds p hp).1, (hbounds p hp).2⟩
  obtain ⟨out, hout, hmapEq, houtbnd⟩ := peersFromTable_ok _ hentries
  have hdes : deserializeState (serializeState s) =
      (match peersFromTable (s.peers.foldl
        (fun t p => tableInsert p.node_id (Toml.table (peerToTable p)) t) []) with
       | RResult.panic => RResult.panic
       | RResult.error e => RResult.error e
       | RResult.ok peers =>
         RResult.ok { node_id := s.node_id, peers := peers }) := rfl
  have hsortedOut : out.Pairwise
      (fun a b => strLt a.node_id b.node_id = true) := by
    rw [hmapEq] at hsorted
    unfold SortedKeys at hsorted
    rw [List.pairwise_map] at hsorted
    exact hsorted
  have hneOut : out.Pairwise (fun a b => a.node_id ≠ b.node_id) := by
    apply hsortedOut.imp
    intro a b hlt heq
    rw [heq, strLt_irrefl] at hlt
    exact Bool.false_ne_true hlt
  refine ⟨{ node_id := s.node_id, peers := out }, ?_, rfl, hsortedOut, hneOut, ?_⟩
  · rw [hdes, hout]
  · intro hids
    have hperm : (s.peers.foldl
        (fun t p => tableInsert p.node_id (Toml.table (peerToTable p)) t)
          []).Perm ([] ++ s.peers.map entryPair) :=
      foldl_insert_perm s.peers [] (by simp) hids
    rw [hmapEq] at hperm
    simp only [List.nil_append] at hperm
    have hndout : out.Nodup := by
      apply hneOut.imp
      intro a b hne heq
      exact hne (congrArg NodePeer.node_id heq)
    have hnds : s.peers.Nodup := List.Nodup.of_map _ hids
    rw [List.perm_ext_iff_of_nodup hndout hnds]
    intro x
    constructor
    · intro hx
      have hmem : entryPair x ∈ s.peers.map entryPair :=
        hperm.mem_iff.mp (List.mem_map.mpr ⟨x, hx, rfl⟩)
      obtain ⟨p, hp, he⟩ := List.mem_map.mp hmem
      have := entryPair_inj p x (hbounds p hp).1 (houtbnd x hx).1 he
      rw [← this]
      exact hp
    · intro hx
      have hmem : entryPair x ∈ out.map entryPair :=
        hperm.mem_iff.mpr (List.mem_map.mpr ⟨x, hx, rfl⟩)
      obtain ⟨p, hp, he⟩ := List.mem_map.mp hmem
      have := entryPair_inj p x (houtbnd p hp).1 (hbounds x hx).1 he
      rw [← this] at hx ⊢
      exact hp

/-- Witness for `c10_roundtrip` on a two-peer state given in descending
id order. -/
theorem c10_roundtrip_witness :
    (∀ p ∈ c10state.peers,
      p.last_seen < 18446744073709551616 ∧ p.port < 65536) ∧
    ∃ out : NodeState,
      deserializeState (serializeState c10state) = RResult.ok out ∧
      out.node_id = c10state.node_id ∧
      out.peers.Pairwise (fun a b => strLt a.node_id b.node_id = true) ∧
      out.peers.Pairwise (fun a b => a.node_id ≠ b.node_id) ∧
      ((c10state.peers.map (fun p => p.node_id)).Nodup →
        out.peers.Perm c10state.peers) :=
  ⟨by decide, c10_roundtrip c10state (by decide)⟩
